import Mathlib

/-!
# TrafficLight.cpp : message queue and phase cycling

A shallow embedding of `src/TrafficLight.cpp`.

* `MessageQueue<T>` is a `std::vector<T>` guarded by a mutex; the vector is a
  `List T` whose last element is `back()`.  A `receive` whose wait predicate
  `!_queue.empty()` is false has not returned: it yields `none`.
* `TrafficLight` holds `_currentPhase` and `_msgQueue`.
* `cycleThroughPhases` keeps the local `cycle_duration`; one pass through the body
  of its `while (1)` is `cycleIteration`, which is given the value of
  `elapsed_seconds.count()` read in that pass and the value `rand()` returns if
  it is called in that pass.  The elapsed time is the difference of two clock
  readings, a finite number, taken here as a rational number of seconds.
* `waitForGreenLoop fuel n` runs at most `fuel` passes of the loop in
  `waitForGreen` after `n` earlier receives, so a call can be followed pass by
  pass with sends of the cycling loop in between.
* `waitForGreenLive` is a `waitForGreen` call scheduled so that it takes every
  value as soon as the cycling loop has sent it.
* `Traced` records the values handed to `send` while passes of the cycling loop
  and receives of waiters alternate in any order.
* The constructor has no member initializer; `TrafficLight.new` takes the value
  the storage of `_currentPhase` holds before the body runs.
-/

namespace TrafficSim

/-- The enumeration `TrafficLightPhase`. -/
inductive TrafficLightPhase where
  | red
  | green
  deriving DecidableEq, Repr

open TrafficLightPhase

/-- The class `MessageQueue<T>`: the vector `_queue` (mutex and condition variable
carry no data). -/
structure MessageQueue (T : Type) where
  _queue : List T
  deriving DecidableEq, Repr

namespace MessageQueue

variable {T : Type}

/-- `MessageQueue<T>::receive`: wait until `!_queue.empty()`, then move out
`_queue.back()`, `pop_back()`, and return the message.  `none` is the caller still
waiting on the condition variable. -/
def receive (mq : MessageQueue T) : Option (T × MessageQueue T) :=
  match mq._queue.getLast? with
  | none => none
  | some msg => some (msg, { _queue := mq._queue.dropLast })

/-- `MessageQueue<T>::send`: `_queue.push_back(std::move(msg))`. -/
def send (mq : MessageQueue T) (msg : T) : MessageQueue T :=
  { _queue := mq._queue.concat msg }

end MessageQueue

/-- The class `TrafficLight`: the data members `_currentPhase` and `_msgQueue`. -/
structure TrafficLight where
  _currentPhase : TrafficLightPhase
  _msgQueue : MessageQueue TrafficLightPhase
  deriving DecidableEq, Repr

namespace TrafficLight

/-- `TrafficLight::setCurrentPhase`. -/
def setCurrentPhase (tl : TrafficLight) (CurrentPhase : TrafficLightPhase) : TrafficLight :=
  { tl with _currentPhase := CurrentPhase }

/-- `TrafficLight::TrafficLight()`: there is no member initializer, so on entry to
the body `_currentPhase` holds whatever value `uninit` the storage has and
`_msgQueue` is default constructed (no element); the body calls
`setCurrentPhase( TrafficLightPhase::red )`. -/
def new (uninit : TrafficLightPhase) : TrafficLight :=
  setCurrentPhase { _currentPhase := uninit, _msgQueue := { _queue := [] } } red

/-- `TrafficLight::getCurrentPhase`. -/
def getCurrentPhase (tl : TrafficLight) : TrafficLightPhase :=
  tl._currentPhase

/-- Outcome of running `waitForGreen` against the queue with no other thread
acting in between. -/
inductive WaitResult where
  /-- the loop hit `break` after `receives` calls of `receive` -/
  | returned (receives : Nat) (tl : TrafficLight)
  /-- after `receives` completed calls, `receive` waits on the empty queue -/
  | blocked (receives : Nat) (tl : TrafficLight)
  /-- the bound on loop passes was reached after `receives` calls -/
  | running (receives : Nat) (tl : TrafficLight)
  deriving DecidableEq, Repr

/-- The `while (1)` of `TrafficLight::waitForGreen`, at most `fuel` passes, having
already completed `n` receives. -/
def waitForGreenLoop : Nat → Nat → TrafficLight → WaitResult
  | 0, n, tl => WaitResult.running n tl
  | fuel + 1, n, tl =>
    match tl._msgQueue.receive with
    | none => WaitResult.blocked n tl
    | some (msg, mq) =>
      if msg = green then
        WaitResult.returned (n + 1) { tl with _msgQueue := mq }
      else
        waitForGreenLoop fuel (n + 1) { tl with _msgQueue := mq }

/-- `TrafficLight::waitForGreen` run with no sender acting meanwhile: every pass
removes one element, so one pass more than the queue length is enough. -/
def waitForGreen (tl : TrafficLight) : WaitResult :=
  waitForGreenLoop (tl._msgQueue._queue.length + 1) 0 tl

end TrafficLight

/-- `const int low = 4;` -/
def low : Int := 4

/-- `const int high = 6;` -/
def high : Int := 6

/-- The expression `rand() % (high - low + 1) + low` for the value `r` of `rand()`;
`%` on `int` truncates toward zero. -/
def cycleDuration (r : Int) : Int :=
  Int.tmod r (high - low + 1) + low

/-- State of a running `cycleThroughPhases`: the object it acts on and the local
variable `cycle_duration`. -/
structure CycleState where
  light : TrafficLight
  cycle_duration : Int
  deriving DecidableEq, Repr

/-- The code of `cycleThroughPhases` before the loop: the first draw of
`cycle_duration` from the value `r` of `rand()`. -/
def cycleStart (tl : TrafficLight) (r : Int) : CycleState :=
  { light := tl, cycle_duration := cycleDuration r }

/-- One pass through the body of the `while (1)` in `cycleThroughPhases`, where
`elapsed` is `elapsed_seconds.count()` and `r` the value of `rand()`. -/
def cycleIteration (s : CycleState) (elapsed : ℚ) (r : Int) : CycleState :=
  if elapsed > (s.cycle_duration : ℚ) then
    let phase := if s.light._currentPhase = red then green else red
    { light := { _currentPhase := phase, _msgQueue := s.light._msgQueue.send phase },
      cycle_duration := cycleDuration r }
  else
    s

/-- Consecutive passes of the loop, one per entry `(elapsed, r)`. -/
def cycleRun (s : CycleState) (inputs : List (ℚ × Int)) : CycleState :=
  inputs.foldl (fun st x => cycleIteration st x.1 x.2) s

/-- A `waitForGreen` call that runs whenever it can while the cycling loop makes
its passes: before every pass, and once more after the last one, the call goes
round its loop on what the queue holds, continuing from `n` receives; when it
is found waiting on the empty queue it stays blocked through the next pass. -/
def waitForGreenLive : Nat → CycleState → List (ℚ × Int) → TrafficLight.WaitResult
  | n, s, [] =>
    TrafficLight.waitForGreenLoop (s.light._msgQueue._queue.length + 1) n s.light
  | n, s, x :: xs =>
    match TrafficLight.waitForGreenLoop (s.light._msgQueue._queue.length + 1) n s.light with
    | TrafficLight.WaitResult.blocked k tl =>
      waitForGreenLive k
        (cycleIteration { light := tl, cycle_duration := s.cycle_duration } x.1 x.2) xs
    | TrafficLight.WaitResult.returned k tl => TrafficLight.WaitResult.returned k tl
    | TrafficLight.WaitResult.running k tl => TrafficLight.WaitResult.running k tl

/-- An operation on a message queue in a serialized history. -/
inductive QueueOp (T : Type) where
  | send (v : T)
  | receive
  deriving DecidableEq, Repr

/-- A queue together with the record of what was sent and what was returned. -/
structure QueueLog (T : Type) where
  queue : MessageQueue T
  sent : List T
  received : List T
  deriving DecidableEq, Repr

namespace QueueLog

variable {T : Type}

/-- The record of a new, empty queue. -/
def empty : QueueLog T :=
  { queue := { _queue := [] }, sent := [], received := [] }

/-- One operation of the history; a `receive` on the empty queue cannot be taken. -/
def step (l : QueueLog T) : QueueOp T → Option (QueueLog T)
  | QueueOp.send v =>
    some { queue := l.queue.send v, sent := l.sent ++ [v], received := l.received }
  | QueueOp.receive =>
    match l.queue.receive with
    | none => none
    | some (msg, mq) => some { queue := mq, sent := l.sent, received := l.received ++ [msg] }

/-- A whole history, left to right. -/
def run : List (QueueOp T) → QueueLog T → Option (QueueLog T)
  | [], l => some l
  | op :: ops, l =>
    match l.step op with
    | none => none
    | some l' => run ops l'

end QueueLog

/-- Number of `send` operations in a history. -/
def countSends {T : Type} (ops : List (QueueOp T)) : Nat :=
  (ops.filter (fun op => match op with | QueueOp.send _ => true | QueueOp.receive => false)).length

/-- Number of `receive` operations in a history. -/
def countReceives {T : Type} (ops : List (QueueOp T)) : Nat :=
  (ops.filter (fun op => match op with | QueueOp.send _ => false | QueueOp.receive => true)).length

/-- The `k`-th value (from 0) of the sequence green, red, green, red, ... -/
def alternation (k : Nat) : TrafficLightPhase :=
  if k % 2 = 0 then green else red

/-- The first `n` values of the sequence green, red, green, red, ... -/
def emitted (n : Nat) : List TrafficLightPhase :=
  (List.range n).map alternation

/-- What happens next in a controller with one cycling loop and any number of
waiters: a pass of the loop, or a `receive` call made by some waiter. -/
inductive Event where
  | pass (elapsed : ℚ) (r : Int)
  | receive
  deriving DecidableEq, Repr

/-- The loop state together with the record of the values handed to `send`. -/
structure Traced where
  cycle : CycleState
  sentLog : List TrafficLightPhase
  deriving DecidableEq, Repr

namespace Traced

/-- A new controller whose loop has just drawn its first threshold. -/
def start (u : TrafficLightPhase) (r0 : Int) : Traced :=
  { cycle := cycleStart (TrafficLight.new u) r0, sentLog := [] }

/-- One event.  A pass records what it added to the queue; a `receive` removes
the last element, or leaves everything as it is while the queue is empty (the
waiter stays blocked). -/
def step (t : Traced) : Event → Traced
  | Event.pass elapsed r =>
    let c := cycleIteration t.cycle elapsed r
    { cycle := c,
      sentLog := t.sentLog ++
        c.light._msgQueue._queue.drop t.cycle.light._msgQueue._queue.length }
  | Event.receive =>
    match t.cycle.light._msgQueue.receive with
    | none => t
    | some (_, mq) =>
      { cycle := { light := { _currentPhase := t.cycle.light._currentPhase, _msgQueue := mq },
                   cycle_duration := t.cycle.cycle_duration },
        sentLog := t.sentLog }

/-- A sequence of events, left to right. -/
def run (t : Traced) (events : List Event) : Traced :=
  events.foldl step t

end Traced

/-- What holds of the record of sent values however receives are interleaved: it
is the alternating sequence, and the phase is the value sent last (red before
the first send). -/
def TracedInv (t : Traced) : Prop :=
  t.sentLog = emitted t.sentLog.length ∧
  t.cycle.light._currentPhase = if t.sentLog.length % 2 = 0 then red else green

/-! ## The message queue -/

/-- C1: `receive` on the queue `q ++ [x]` returns `x`, the element appended last,
and leaves exactly `q`. -/
theorem receive_returns_last {T : Type} (q : List T) (x : T) :
    MessageQueue.receive { _queue := q ++ [x] } = some (x, { _queue := q }) := by
  simp [MessageQueue.receive]

/-- C2: `send` never fails and puts its argument at the end: the queue after
`send v` is `q ++ [v]`, one element longer, with the old elements at the same
positions. -/
theorem send_appends {T : Type} (q : List T) (v : T) :
    (MessageQueue.send { _queue := q } v)._queue = q ++ [v] ∧
    (MessageQueue.send { _queue := q } v)._queue.length = q.length + 1 ∧
    (MessageQueue.send { _queue := q } v)._queue.take q.length = q ∧
    (MessageQueue.send { _queue := q } v)._queue.drop q.length = [v] := by
  simp [MessageQueue.send]

/-- A `receive` that returns took the last element off the queue. -/
theorem receive_eq_some {T : Type} (mq mq' : MessageQueue T) (x : T)
    (h : mq.receive = some (x, mq')) : mq._queue = mq'._queue ++ [x] := by
  unfold MessageQueue.receive at h
  cases hl : mq._queue.getLast? with
  | none => simp [hl] at h
  | some a =>
    simp only [hl, Option.some.injEq, Prod.mk.injEq] at h
    obtain ⟨hx, hq⟩ := h
    subst hx
    subst hq
    exact (List.dropLast_append_getLast? a hl).symm

/-- On the empty queue `receive` does not return. -/
theorem receive_nil {T : Type} : MessageQueue.receive ({ _queue := [] } : MessageQueue T) = none := by
  simp [MessageQueue.receive]

/-- The record stays balanced along a history, and the two logs grow by the
number of operations of each kind. -/
theorem run_balanced {T : Type} (ops : List (QueueOp T)) :
    ∀ l l' : QueueLog T, QueueLog.run ops l = some l' →
      l.sent.Perm (l.received ++ l.queue._queue) →
      l'.sent.Perm (l'.received ++ l'.queue._queue) ∧
      l'.sent.length = l.sent.length + countSends ops ∧
      l'.received.length = l.received.length + countReceives ops := by
  induction ops with
  | nil =>
    intro l l' h hb
    simp only [QueueLog.run, Option.some.injEq] at h
    subst h
    simp [hb, countSends, countReceives]
  | cons op ops ih =>
    intro l l' h hb
    cases op with
    | send v =>
      simp only [QueueLog.run, QueueLog.step] at h
      have hstep := ih _ l' h (by
        simp only [MessageQueue.send, List.concat_eq_append]
        rw [← List.append_assoc]
        exact List.Perm.append_right [v] hb)
      refine ⟨hstep.1, ?_, ?_⟩
      · rw [hstep.2.1]; simp [countSends]; omega
      · rw [hstep.2.2]; simp [countReceives]
    | receive =>
      simp only [QueueLog.run, QueueLog.step] at h
      cases hr : l.queue.receive with
      | none => simp [hr] at h
      | some res =>
        obtain ⟨msg, mq⟩ := res
        simp only [hr] at h
        have hq := receive_eq_some _ _ _ hr
        have hstep := ih _ l' h (by
          show l.sent.Perm ((l.received ++ [msg]) ++ mq._queue)
          rw [hq] at hb
          refine hb.trans ?_
          rw [List.append_assoc]
          exact List.Perm.append_left _ List.perm_append_comm)
        refine ⟨hstep.1, ?_, ?_⟩
        · rw [hstep.2.1]; simp [countSends]
        · rw [hstep.2.2]; simp [countReceives]; omega

/-- C5: along every serialized history of sends and receives that starts from the
empty queue and takes a receive only on a non-empty queue, the multiset of sent
values is the multiset of returned values plus the multiset of queued values,
and the queue length is the number of sends minus the number of receives. -/
theorem no_loss_no_duplication {T : Type} (ops : List (QueueOp T)) (l : QueueLog T)
    (h : QueueLog.run ops QueueLog.empty = some l) :
    (l.sent : Multiset T) = (l.received : Multiset T) + (l.queue._queue : Multiset T) ∧
    l.sent.length = countSends ops ∧
    l.received.length = countReceives ops ∧
    countReceives ops ≤ countSends ops ∧
    l.queue._queue.length = countSends ops - countReceives ops := by
  have hb := run_balanced ops QueueLog.empty l h (by simp [QueueLog.empty])
  obtain ⟨hperm, hs, hr⟩ := hb
  simp only [QueueLog.empty, List.length_nil, Nat.zero_add] at hs hr
  have hlen := hperm.length_eq
  rw [List.length_append] at hlen
  refine ⟨?_, hs, hr, by omega, by omega⟩
  rw [Multiset.coe_add]
  exact Multiset.coe_eq_coe.mpr hperm

/-- C5 at the history send 1, send 2, receive, send 3, receive: the receives
return 2 and 3, and 1 stays queued. -/
theorem no_loss_no_duplication_witness :
    QueueLog.run
        [QueueOp.send 1, QueueOp.send 2, QueueOp.receive, QueueOp.send 3, QueueOp.receive]
        QueueLog.empty
      = some ({ queue := { _queue := [1] }, sent := [1, 2, 3], received := [2, 3] } : QueueLog Nat) ∧
    ((([1, 2, 3] : List Nat) : Multiset Nat)
      = (([2, 3] : List Nat) : Multiset Nat) + (([1] : List Nat) : Multiset Nat)) ∧
    ([1] : List Nat).length = 3 - 2 :=
  have h := no_loss_no_duplication
    [QueueOp.send 1, QueueOp.send 2, QueueOp.receive, QueueOp.send 3, QueueOp.receive]
    ({ queue := { _queue := [1] }, sent := [1, 2, 3], received := [2, 3] } : QueueLog Nat)
    (by decide)
  ⟨by decide, h.1, h.2.2.2.2⟩

/-! ## The cycling loop -/

/-- The other phase, as the `if`/`else` of the loop body computes it. -/
theorem flip_cases (p : TrafficLightPhase) :
    (if p = red then green else red) ≠ p ∧
    (p = red → (if p = red then green else red) = green) ∧
    (p = green → (if p = red then green else red) = red) := by
  cases p <;> simp

/-- A pass whose elapsed time does not exceed the threshold changes nothing. -/
theorem cycleIteration_idle (s : CycleState) (e : ℚ) (r : Int)
    (h : e ≤ (s.cycle_duration : ℚ)) : cycleIteration s e r = s := by
  unfold cycleIteration
  rw [if_neg (not_lt.mpr h)]

/-- A pass whose elapsed time exceeds the threshold flips, redraws and sends. -/
theorem cycleIteration_flip (s : CycleState) (e : ℚ) (r : Int)
    (h : e > (s.cycle_duration : ℚ)) :
    cycleIteration s e r =
      { light :=
          { _currentPhase := if s.light._currentPhase = red then green else red,
            _msgQueue :=
              { _queue := s.light._msgQueue._queue ++
                  [if s.light._currentPhase = red then green else red] } },
        cycle_duration := cycleDuration r } := by
  unfold cycleIteration
  rw [if_pos h]
  simp [MessageQueue.send]

/-- C7: one pass of the cycling loop is a guarded flip.  If the elapsed time does
not exceed the threshold, phase, threshold and queue stay as they are; if it
exceeds the threshold, the phase becomes the other value and exactly that value
is appended to the queue.  The pass has no other way of changing the phase. -/
theorem cycleIteration_guarded_flip (s : CycleState) (e : ℚ) (r : Int) :
    (e ≤ (s.cycle_duration : ℚ) → cycleIteration s e r = s) ∧
    (e > (s.cycle_duration : ℚ) →
      (cycleIteration s e r).light._currentPhase ≠ s.light._currentPhase ∧
      (s.light._currentPhase = red → (cycleIteration s e r).light._currentPhase = green) ∧
      (s.light._currentPhase = green → (cycleIteration s e r).light._currentPhase = red) ∧
      (cycleIteration s e r).light._msgQueue._queue =
        s.light._msgQueue._queue ++ [(cycleIteration s e r).light._currentPhase]) ∧
    ((cycleIteration s e r).light._currentPhase ≠ s.light._currentPhase →
      e > (s.cycle_duration : ℚ)) := by
  refine ⟨cycleIteration_idle s e r, ?_, ?_⟩
  · intro h
    rw [cycleIteration_flip s e r h]
    have hf := flip_cases s.light._currentPhase
    exact ⟨hf.1, hf.2.1, hf.2.2, rfl⟩
  · intro hne
    by_contra hle
    exact hne (by rw [cycleIteration_idle s e r (not_lt.mp hle)])

/-- C7 at phase red, threshold 5, queue [green, red]: elapsed time 5 changes
nothing, elapsed time 6 flips to green and appends green. -/
theorem cycleIteration_guarded_flip_witness :
    ((5 : ℚ) ≤ (((5 : Int)) : ℚ) ∧ (6 : ℚ) > (((5 : Int)) : ℚ)) ∧
    cycleIteration { light := { _currentPhase := red, _msgQueue := { _queue := [green, red] } },
                     cycle_duration := 5 } 5 9
      = { light := { _currentPhase := red, _msgQueue := { _queue := [green, red] } },
          cycle_duration := 5 } ∧
    (cycleIteration { light := { _currentPhase := red, _msgQueue := { _queue := [green, red] } },
                      cycle_duration := 5 } 6 9).light._currentPhase = green ∧
    (cycleIteration { light := { _currentPhase := red, _msgQueue := { _queue := [green, red] } },
                      cycle_duration := 5 } 6 9).light._msgQueue._queue = [green, red, green] :=
  ⟨by decide,
   (cycleIteration_guarded_flip
      { light := { _currentPhase := red, _msgQueue := { _queue := [green, red] } },
        cycle_duration := 5 } 5 9).1 (by decide),
   ((cycleIteration_guarded_flip
      { light := { _currentPhase := red, _msgQueue := { _queue := [green, red] } },
        cycle_duration := 5 } 6 9).2.1 (by decide)).2.1 rfl,
   by decide⟩

/-- Whatever `rand()` returns, the drawn threshold is below 7. -/
theorem cycleDuration_lt (r : Int) : cycleDuration r < 7 := by
  have h := Int.tmod_lt_of_pos r (show (0 : Int) < 3 by decide)
  simp only [cycleDuration, low, high]
  show Int.tmod r 3 + 4 < 7
  omega

/-- For a non-negative `rand()` value the drawn threshold is 4, 5 or 6. -/
theorem cycleDuration_mem (r : Int) (h : 0 ≤ r) :
    cycleDuration r = 4 ∨ cycleDuration r = 5 ∨ cycleDuration r = 6 := by
  have h1 := Int.tmod_lt_of_pos r (show (0 : Int) < 3 by decide)
  have h2 := Int.tmod_nonneg (3 : Int) h
  simp only [cycleDuration, low, high]
  show Int.tmod r 3 + 4 = 4 ∨ Int.tmod r 3 + 4 = 5 ∨ Int.tmod r 3 + 4 = 6
  omega

/-- With non-negative `rand()` values the threshold stays in 4..6 along the loop. -/
theorem cycleRun_duration (inputs : List (ℚ × Int)) :
    ∀ s : CycleState, (∀ x ∈ inputs, 0 ≤ x.2) →
      (s.cycle_duration = 4 ∨ s.cycle_duration = 5 ∨ s.cycle_duration = 6) →
      ((cycleRun s inputs).cycle_duration = 4 ∨ (cycleRun s inputs).cycle_duration = 5 ∨
        (cycleRun s inputs).cycle_duration = 6) := by
  induction inputs with
  | nil => intro s _ hs; exact hs
  | cons x xs ih =>
    intro s hin hs
    show ((cycleRun (cycleIteration s x.1 x.2) xs).cycle_duration = 4 ∨ _)
    apply ih
    · intro y hy
      exact hin y (List.mem_cons_of_mem _ hy)
    · by_cases hx : x.1 > (s.cycle_duration : ℚ)
      · rw [cycleIteration_flip s x.1 x.2 hx]
        exact cycleDuration_mem x.2 (hin x (List.mem_cons_self _ _))
      · rw [cycleIteration_idle s x.1 x.2 (not_lt.mp hx)]
        exact hs

/-- C8: every threshold the cycling loop draws is 4, 5 or 6.  For non-negative
`rand()` values this holds for the first draw, for every redraw, and so for the
threshold in force after any number of passes; and each of 4, 5, 6 is drawn for
some value of `rand()`. -/
theorem cycle_duration_range (tl : TrafficLight) (r0 : Int) (inputs : List (ℚ × Int))
    (h0 : 0 ≤ r0) (hin : ∀ x ∈ inputs, 0 ≤ x.2) :
    (4 ≤ cycleDuration r0 ∧ cycleDuration r0 ≤ 6) ∧
    (cycleStart tl r0).cycle_duration = cycleDuration r0 ∧
    (∀ x ∈ inputs, 4 ≤ cycleDuration x.2 ∧ cycleDuration x.2 ≤ 6) ∧
    (4 ≤ (cycleRun (cycleStart tl r0) inputs).cycle_duration ∧
      (cycleRun (cycleStart tl r0) inputs).cycle_duration ≤ 6) ∧
    (cycleDuration 0 = 4 ∧ cycleDuration 1 = 5 ∧ cycleDuration 2 = 6) := by
  refine ⟨?_, rfl, ?_, ?_, by decide⟩
  · have := cycleDuration_mem r0 h0
    omega
  · intro x hx
    have := cycleDuration_mem x.2 (hin x hx)
    omega
  · have := cycleRun_duration inputs (cycleStart tl r0) hin (cycleDuration_mem r0 h0)
    omega

/-- C8 at `rand()` values 7 for the first draw and 11, 12 for two passes. -/
theorem cycle_duration_range_witness :
    ((0 : Int) ≤ 7 ∧ ∀ x ∈ ([(6, 11), (7, 12)] : List (ℚ × Int)), 0 ≤ x.2) ∧
    (4 ≤ cycleDuration 7 ∧ cycleDuration 7 ≤ 6) ∧
    (4 ≤ (cycleRun (cycleStart (TrafficLight.new green) 7) [(6, 11), (7, 12)]).cycle_duration ∧
      (cycleRun (cycleStart (TrafficLight.new green) 7) [(6, 11), (7, 12)]).cycle_duration ≤ 6) :=
  have h := cycle_duration_range (TrafficLight.new green) 7 [(6, 11), (7, 12)] (by decide) (by decide)
  ⟨by decide, h.1, h.2.2.2.1⟩

/-! ## Alternation of the values sent -/

/-- The alternating sequence grows at the end. -/
theorem emitted_succ (n : Nat) : emitted (n + 1) = emitted n ++ [alternation n] := by
  simp [emitted, List.range_succ]

/-- Neighbouring values of the alternating sequence differ. -/
theorem alternation_succ_ne (m : Nat) : alternation m ≠ alternation (m + 1) := by
  unfold alternation
  rcases Nat.mod_two_eq_zero_or_one m with h | h
  · have h' : (m + 1) % 2 = 1 := by omega
    simp [h, h']
  · have h' : (m + 1) % 2 = 0 := by omega
    simp [h, h']

/-- No two consecutive entries of the alternating sequence are equal. -/
theorem emitted_chain (n : Nat) : List.Chain' (fun a b => a ≠ b) (emitted n) := by
  unfold emitted
  rw [List.chain'_map]
  cases n with
  | zero => simp
  | succ m =>
    rw [List.chain'_range_succ]
    intro k _
    exact alternation_succ_ne k

/-- A new controller satisfies the invariant of the record of sent values. -/
theorem tracedInv_start (u : TrafficLightPhase) (r0 : Int) : TracedInv (Traced.start u r0) := by
  simp [TracedInv, Traced.start, cycleStart, TrafficLight.new, TrafficLight.setCurrentPhase,
    emitted]

/-- What a pass that exceeds the threshold does to the record. -/
theorem traced_step_flip (t : Traced) (e : ℚ) (r : Int)
    (he : e > (t.cycle.cycle_duration : ℚ)) :
    (t.step (Event.pass e r)).sentLog
        = t.sentLog ++ [if t.cycle.light._currentPhase = red then green else red] ∧
    (t.step (Event.pass e r)).cycle.light._currentPhase
        = (if t.cycle.light._currentPhase = red then green else red) ∧
    (t.step (Event.pass e r)).cycle.cycle_duration = cycleDuration r := by
  simp only [Traced.step]
  rw [cycleIteration_flip t.cycle e r he]
  simp

/-- Every event keeps the invariant of the record of sent values. -/
theorem tracedInv_step (t : Traced) (ev : Event) (h : TracedInv t) : TracedInv (t.step ev) := by
  cases ev with
  | pass e r =>
    by_cases he : e > (t.cycle.cycle_duration : ℚ)
    · obtain ⟨h1, h2, _⟩ := traced_step_flip t e r he
      obtain ⟨hq, hp⟩ := h
      unfold TracedInv
      rw [h1, h2]
      simp only [List.length_append, List.length_singleton]
      rw [emitted_succ, ← hq, hp]
      rcases Nat.mod_two_eq_zero_or_one t.sentLog.length with hm | hm
      · have hm' : (t.sentLog.length + 1) % 2 = 1 := by omega
        simp [hm, hm', alternation]
      · have hm' : (t.sentLog.length + 1) % 2 = 0 := by omega
        simp [hm, hm', alternation]
    · have hstep : t.step (Event.pass e r) = t := by
        simp only [Traced.step]
        rw [cycleIteration_idle t.cycle e r (not_lt.mp he)]
        simp
      rw [hstep]
      exact h
  | receive =>
    simp only [Traced.step]
    cases hr : t.cycle.light._msgQueue.receive with
    | none => exact h
    | some res => exact h

/-- Every sequence of events keeps the invariant of the record of sent values. -/
theorem tracedInv_run (events : List Event) :
    ∀ t : Traced, TracedInv t → TracedInv (t.run events) := by
  induction events with
  | nil => intro t h; exact h
  | cons ev evs ih =>
    intro t h
    exact ih _ (tracedInv_step t ev h)

/-- Passes that all exceed the threshold record one sent value each. -/
theorem traced_run_replicate (n : Nat) :
    ∀ t : Traced, t.cycle.cycle_duration < 7 →
      (t.run (List.replicate n (Event.pass 7 0))).sentLog.length = t.sentLog.length + n := by
  induction n with
  | zero => intro t _; rfl
  | succ m ih =>
    intro t ht
    have he : (7 : ℚ) > (t.cycle.cycle_duration : ℚ) := by exact_mod_cast ht
    obtain ⟨h1, _, h3⟩ := traced_step_flip t 7 0 he
    show ((t.step (Event.pass 7 0)).run (List.replicate m (Event.pass 7 0))).sentLog.length = _
    rw [ih _ (by rw [h3]; exact cycleDuration_lt 0), h1]
    simp only [List.length_append, List.length_singleton]
    omega

/-- C3: for a controller constructed in phase red and driven by one cycling loop,
the values the loop sends, whatever receives happen in between, are green, red,
green, red, ...: the value at position `k` (counting from 0) is green for even
`k` and red for odd `k`, no two consecutive values are equal, and every number of
flips `n` occurs. -/
theorem alternation_invariant (u : TrafficLightPhase) (r0 : Int) (events : List Event) :
    ((Traced.start u r0).run events).sentLog
      = emitted ((Traced.start u r0).run events).sentLog.length ∧
    List.Chain' (fun a b => a ≠ b) ((Traced.start u r0).run events).sentLog ∧
    (∀ k, ((Traced.start u r0).run events).sentLog.length ≤ k ∨
      ((Traced.start u r0).run events).sentLog[k]? = some (if k % 2 = 0 then green else red)) ∧
    (∀ n, ∃ flips : List Event, ((Traced.start u r0).run flips).sentLog = emitted n) := by
  have hinv := tracedInv_run events _ (tracedInv_start u r0)
  refine ⟨hinv.1, ?_, ?_, ?_⟩
  · rw [hinv.1]
    exact emitted_chain _
  · intro k
    by_cases hk : ((Traced.start u r0).run events).sentLog.length ≤ k
    · exact Or.inl hk
    · right
      rw [hinv.1]
      have hk' : k < ((Traced.start u r0).run events).sentLog.length := Nat.lt_of_not_le hk
      simp [emitted, alternation, List.getElem?_range, hk']
  · intro n
    refine ⟨List.replicate n (Event.pass 7 0), ?_⟩
    have hlen := traced_run_replicate n (Traced.start u r0) (cycleDuration_lt r0)
    have hq := (tracedInv_run (List.replicate n (Event.pass 7 0)) _ (tracedInv_start u r0)).1
    rw [hq, hlen]
    simp [Traced.start]

/-! ## Waiting for green -/

/-- On the empty queue `waitForGreen` never returns, whatever the number of passes. -/
theorem waitForGreenLoop_nil (fuel n : Nat) (p : TrafficLightPhase) (k : Nat)
    (tl : TrafficLight) :
    TrafficLight.waitForGreenLoop fuel n { _currentPhase := p, _msgQueue := { _queue := [] } }
      ≠ TrafficLight.WaitResult.returned k tl := by
  cases fuel with
  | zero => simp [TrafficLight.waitForGreenLoop]
  | succ f => simp [TrafficLight.waitForGreenLoop, receive_nil]

/-- Passes that never exceed the threshold leave the loop state alone. -/
theorem cycleRun_idle (inputs : List (ℚ × Int)) (s : CycleState)
    (h : ∀ x ∈ inputs, x.1 ≤ (s.cycle_duration : ℚ)) : cycleRun s inputs = s := by
  induction inputs with
  | nil => rfl
  | cons x xs ih =>
    show cycleRun (cycleIteration s x.1 x.2) xs = s
    rw [cycleIteration_idle s x.1 x.2 (h x (List.mem_cons_self _ _))]
    exact ih (fun y hy => h y (List.mem_cons_of_mem _ hy))

/-- The flipping pass, on a state written out field by field. -/
theorem cycleIteration_flip_mk (p : TrafficLightPhase) (q : List TrafficLightPhase) (d : Int)
    (e : ℚ) (r : Int) (h : e > (d : ℚ)) :
    cycleIteration { light := { _currentPhase := p, _msgQueue := { _queue := q } },
                     cycle_duration := d } e r
      = { light :=
            { _currentPhase := if p = red then green else red,
              _msgQueue := { _queue := q ++ [if p = red then green else red] } },
          cycle_duration := cycleDuration r } :=
  cycleIteration_flip
    { light := { _currentPhase := p, _msgQueue := { _queue := q } }, cycle_duration := d } e r h

/-- The idle pass, on a state written out field by field. -/
theorem cycleIteration_idle_mk (p : TrafficLightPhase) (q : List TrafficLightPhase) (d : Int)
    (e : ℚ) (r : Int) (h : e ≤ (d : ℚ)) :
    cycleIteration { light := { _currentPhase := p, _msgQueue := { _queue := q } },
                     cycle_duration := d } e r
      = { light := { _currentPhase := p, _msgQueue := { _queue := q } }, cycle_duration := d } :=
  cycleIteration_idle
    { light := { _currentPhase := p, _msgQueue := { _queue := q } }, cycle_duration := d } e r h

/-- The passes of the loop do not look at the queue: what they append is the same
whatever the queue holds. -/
theorem cycleRun_queue (xs : List (ℚ × Int)) :
    ∀ (p : TrafficLightPhase) (q : List TrafficLightPhase) (d : Int),
      cycleRun { light := { _currentPhase := p, _msgQueue := { _queue := q } },
                 cycle_duration := d } xs
        = { light :=
              { _currentPhase :=
                  (cycleRun { light := { _currentPhase := p, _msgQueue := { _queue := [] } },
                              cycle_duration := d } xs).light._currentPhase,
                _msgQueue :=
                  { _queue := q ++
                      (cycleRun { light := { _currentPhase := p, _msgQueue := { _queue := [] } },
                                  cycle_duration := d } xs).light._msgQueue._queue } },
            cycle_duration :=
              (cycleRun { light := { _currentPhase := p, _msgQueue := { _queue := [] } },
                          cycle_duration := d } xs).cycle_duration } := by
  induction xs with
  | nil => intro p q d; simp [cycleRun]
  | cons x xs ih =>
    intro p q d
    have hr : ∀ s : CycleState, cycleRun s (x :: xs) = cycleRun (cycleIteration s x.1 x.2) xs :=
      fun _ => rfl
    simp only [hr]
    by_cases hx : x.1 > (d : ℚ)
    · rw [cycleIteration_flip_mk p q d x.1 x.2 hx, cycleIteration_flip_mk p [] d x.1 x.2 hx]
      simp only [List.nil_append]
      rw [ih _ (q ++ [if p = red then green else red]) _,
        ih _ [if p = red then green else red] _]
      simp
    · rw [cycleIteration_idle_mk p q d x.1 x.2 (not_lt.mp hx),
        cycleIteration_idle_mk p [] d x.1 x.2 (not_lt.mp hx)]
      exact ih p q d

/-- A call found on the empty queue waits through the next pass. -/
theorem waitForGreenLive_nil_cons (n : Nat) (p : TrafficLightPhase) (d : Int)
    (x : ℚ × Int) (xs : List (ℚ × Int)) :
    waitForGreenLive n
        { light := { _currentPhase := p, _msgQueue := { _queue := [] } }, cycle_duration := d }
        (x :: xs)
      = waitForGreenLive n
          (cycleIteration
            { light := { _currentPhase := p, _msgQueue := { _queue := [] } }, cycle_duration := d }
            x.1 x.2) xs := by
  simp [waitForGreenLive, TrafficLight.waitForGreenLoop, receive_nil]

/-- A call that finds a single green returns at once. -/
theorem waitForGreenLive_green (n : Nat) (p : TrafficLightPhase) (d : Int)
    (xs : List (ℚ × Int)) :
    waitForGreenLive n
        { light := { _currentPhase := p, _msgQueue := { _queue := [green] } }, cycle_duration := d }
        xs
      = TrafficLight.WaitResult.returned (n + 1)
          { _currentPhase := p, _msgQueue := { _queue := [] } } := by
  cases xs <;> simp [waitForGreenLive, TrafficLight.waitForGreenLoop, MessageQueue.receive]

/-- A call waiting on the empty queue while the phase is red: it stays blocked
until the loop sends, and returns on that first value, which is green. -/
theorem waitForGreenLive_from_red (xs : List (ℚ × Int)) :
    ∀ (n : Nat) (d : Int),
      ((cycleRun { light := { _currentPhase := red, _msgQueue := { _queue := [] } },
                   cycle_duration := d } xs).light._msgQueue._queue = [] ∧
        waitForGreenLive n
            { light := { _currentPhase := red, _msgQueue := { _queue := [] } }, cycle_duration := d }
            xs
          = TrafficLight.WaitResult.blocked n
              { _currentPhase := red, _msgQueue := { _queue := [] } }) ∨
      ((∃ rest, (cycleRun { light := { _currentPhase := red, _msgQueue := { _queue := [] } },
                            cycle_duration := d } xs).light._msgQueue._queue = green :: rest) ∧
        waitForGreenLive n
            { light := { _currentPhase := red, _msgQueue := { _queue := [] } }, cycle_duration := d }
            xs
          = TrafficLight.WaitResult.returned (n + 1)
              { _currentPhase := green, _msgQueue := { _queue := [] } }) := by
  induction xs with
  | nil =>
    intro n d
    left
    simp [cycleRun, waitForGreenLive, TrafficLight.waitForGreenLoop, receive_nil]
  | cons x xs ih =>
    intro n d
    rw [waitForGreenLive_nil_cons]
    have hr : ∀ s : CycleState, cycleRun s (x :: xs) = cycleRun (cycleIteration s x.1 x.2) xs :=
      fun _ => rfl
    rw [hr]
    by_cases hx : x.1 > (d : ℚ)
    · right
      rw [cycleIteration_flip_mk red [] d x.1 x.2 hx]
      simp only [if_true, List.nil_append]
      rw [cycleRun_queue, waitForGreenLive_green]
      exact ⟨⟨_, rfl⟩, rfl⟩
    · rw [cycleIteration_idle_mk _ [] d x.1 x.2 (not_lt.mp hx)]
      exact ih n d

/-- Passes one after another: running a list and then one more pass. -/
theorem cycleRun_snoc (s : CycleState) (xs : List (ℚ × Int)) (e : ℚ) (r : Int) :
    cycleRun s (xs ++ [(e, r)]) = cycleIteration (cycleRun s xs) e r := by
  simp [cycleRun, List.foldl_append]

/-- C6 (as amended): start-up.  A new controller reads red, whatever its storage
held before the constructor body ran.  While the loop has not flipped, the
queue is empty and a `waitForGreen` call begun then stays blocked.  If the call
takes the first value as soon as it is sent, it returns after exactly one
receive, that of green, and until the next flip `getCurrentPhase` reads
green. -/
theorem startup_scenario (u : TrafficLightPhase) (r0 : Int) (before : List (ℚ × Int))
    (e : ℚ) (r : Int) (after : List (ℚ × Int))
    (hbefore : ∀ x ∈ before, x.1 ≤ ((cycleDuration r0 : Int) : ℚ))
    (he : e > ((cycleDuration r0 : Int) : ℚ))
    (hafter : ∀ x ∈ after, x.1 ≤ ((cycleDuration r : Int) : ℚ)) :
    TrafficLight.getCurrentPhase (TrafficLight.new u) = red ∧
    (cycleRun (cycleStart (TrafficLight.new u) r0) before).light._msgQueue._queue = [] ∧
    (∀ fuel k tl, TrafficLight.waitForGreenLoop fuel 0
        (cycleRun (cycleStart (TrafficLight.new u) r0) before).light
      ≠ TrafficLight.WaitResult.returned k tl) ∧
    waitForGreenLive 0 (cycleStart (TrafficLight.new u) r0) before
      = TrafficLight.WaitResult.blocked 0 (TrafficLight.new u) ∧
    (cycleIteration (cycleRun (cycleStart (TrafficLight.new u) r0) before) e r).light
      = { _currentPhase := green, _msgQueue := { _queue := [green] } } ∧
    waitForGreenLive 0 (cycleStart (TrafficLight.new u) r0) (before ++ [(e, r)])
      = TrafficLight.WaitResult.returned 1
          { _currentPhase := green, _msgQueue := { _queue := [] } } ∧
    TrafficLight.getCurrentPhase
        (cycleRun
          { light := { _currentPhase := green, _msgQueue := { _queue := [] } },
            cycle_duration :=
              (cycleIteration (cycleRun (cycleStart (TrafficLight.new u) r0) before) e r).cycle_duration }
          after).light
      = green := by
  have hnew : TrafficLight.new u = { _currentPhase := red, _msgQueue := { _queue := [] } } := by
    cases u <;> rfl
  have hstart : cycleStart (TrafficLight.new u) r0
      = { light := { _currentPhase := red, _msgQueue := { _queue := [] } },
          cycle_duration := cycleDuration r0 } := by
    rw [hnew]; rfl
  rw [hstart]
  have hrun : cycleRun
      { light := { _currentPhase := red, _msgQueue := { _queue := [] } },
        cycle_duration := cycleDuration r0 } before
      = { light := { _currentPhase := red, _msgQueue := { _queue := [] } },
          cycle_duration := cycleDuration r0 } :=
    cycleRun_idle before _ hbefore
  have hflip := cycleIteration_flip_mk red [] (cycleDuration r0) e r he
  simp only [if_true, List.nil_append] at hflip
  have hsnoc := cycleRun_snoc
    { light := { _currentPhase := red, _msgQueue := { _queue := [] } },
      cycle_duration := cycleDuration r0 } before e r
  rw [hrun, hflip] at hsnoc
  rw [hrun, hflip, hnew]
  refine ⟨rfl, rfl, ?_, ?_, rfl, ?_, ?_⟩
  · intro fuel k tl
    exact waitForGreenLoop_nil fuel 0 red k tl
  · rcases waitForGreenLive_from_red before 0 (cycleDuration r0) with ⟨_, hw⟩ | ⟨⟨rest, hs⟩, _⟩
    · exact hw
    · rw [hrun] at hs
      exact absurd hs (by simp)
  · rcases waitForGreenLive_from_red (before ++ [(e, r)]) 0 (cycleDuration r0) with
      ⟨hs, _⟩ | ⟨_, hw⟩
    · rw [hsnoc] at hs
      exact absurd hs (by simp)
    · exact hw
  · rw [cycleRun_idle after _ hafter]
    rfl

/-- C6 (as amended) with first threshold 4: passes at 1 s and 4 s do not flip,
the pass at 5 s flips, a later pass at 2 s does not. -/
theorem startup_scenario_witness :
    ((∀ x ∈ ([(1, 3), (4, 3)] : List (ℚ × Int)), x.1 ≤ ((cycleDuration 0 : Int) : ℚ)) ∧
      (5 : ℚ) > ((cycleDuration 0 : Int) : ℚ) ∧
      (∀ x ∈ ([(2, 5)] : List (ℚ × Int)), x.1 ≤ ((cycleDuration 1 : Int) : ℚ))) ∧
    TrafficLight.getCurrentPhase (TrafficLight.new green) = red ∧
    waitForGreenLive 0 (cycleStart (TrafficLight.new green) 0) ([(1, 3), (4, 3)] ++ [(5, 1)])
      = TrafficLight.WaitResult.returned 1
          { _currentPhase := green, _msgQueue := { _queue := [] } } :=
  have h := startup_scenario green 0 [(1, 3), (4, 3)] 5 1 [(2, 5)]
    (by decide) (by decide) (by decide)
  ⟨by decide, h.1, h.2.2.2.2.2.1⟩

/-- C6 as stated fails: a `waitForGreen` call begun before the loop has sent
anything is blocked; if the loop flips twice before the call's `receive` goes on,
the queue is green, red, the first value the call takes is red, it returns
after 2 receives, and `getCurrentPhase` then reads red. -/
theorem startup_late_receive :
    TrafficLight.waitForGreen (cycleStart (TrafficLight.new green) 0).light
      = TrafficLight.WaitResult.blocked 0 (TrafficLight.new green) ∧
    cycleRun (cycleStart (TrafficLight.new green) 0) [(5, 0), (5, 0)]
      = { light := { _currentPhase := red, _msgQueue := { _queue := [green, red] } },
          cycle_duration := 4 } ∧
    MessageQueue.receive ({ _queue := [green, red] } : MessageQueue TrafficLightPhase)
      = some (red, { _queue := [green] }) ∧
    TrafficLight.waitForGreen { _currentPhase := red, _msgQueue := { _queue := [green, red] } }
      = TrafficLight.WaitResult.returned 2 { _currentPhase := red, _msgQueue := { _queue := [] } } ∧
    TrafficLight.getCurrentPhase { _currentPhase := red, _msgQueue := { _queue := [] } } = red ∧
    ¬ (2 = 1) ∧ red ≠ green := by
  decide

/-- C10: stale green.  After the first two flips of the loop with nobody
waiting, the queue is green, red and the phase is red; a `waitForGreen` call
begun then returns after 2 receives without any further send, on the green
sent before the call began, and `getCurrentPhase` reads red before and after. -/
theorem stale_green (u : TrafficLightPhase) (r0 r1 r2 : Int) :
    (cycleRun (cycleStart (TrafficLight.new u) r0) [(7, r1), (7, r2)]).light
      = { _currentPhase := red, _msgQueue := { _queue := [green, red] } } ∧
    TrafficLight.getCurrentPhase
      (cycleRun (cycleStart (TrafficLight.new u) r0) [(7, r1), (7, r2)]).light = red ∧
    TrafficLight.waitForGreen (cycleRun (cycleStart (TrafficLight.new u) r0) [(7, r1), (7, r2)]).light
      = TrafficLight.WaitResult.returned 2 { _currentPhase := red, _msgQueue := { _queue := [] } } ∧
    TrafficLight.getCurrentPhase { _currentPhase := red, _msgQueue := { _queue := [] } } = red := by
  have h0 : (7 : ℚ) > ((cycleStart (TrafficLight.new u) r0).cycle_duration : ℚ) := by
    exact_mod_cast cycleDuration_lt r0
  have e1 := cycleIteration_flip (cycleStart (TrafficLight.new u) r0) 7 r1 h0
  have h1 : (7 : ℚ) >
      ((cycleIteration (cycleStart (TrafficLight.new u) r0) 7 r1).cycle_duration : ℚ) := by
    rw [e1]
    exact_mod_cast cycleDuration_lt r1
  have e2 := cycleIteration_flip (cycleIteration (cycleStart (TrafficLight.new u) r0) 7 r1) 7 r2 h1
  have hs : (cycleRun (cycleStart (TrafficLight.new u) r0) [(7, r1), (7, r2)]).light
      = { _currentPhase := red, _msgQueue := { _queue := [green, red] } } := by
    show (cycleIteration (cycleIteration (cycleStart (TrafficLight.new u) r0) 7 r1) 7 r2).light = _
    rw [e2, e1]
    simp [cycleStart, TrafficLight.new, TrafficLight.setCurrentPhase]
  rw [hs]
  exact ⟨rfl, rfl, rfl, rfl⟩

end TrafficSim
